import Mathlib

/-!
# Verification of the bibliography-manager plugin's core data transforms

Shallow embedding of the deterministic helper functions of the repository:
citekey generation (`src/utils/api.ts` / the exportbib copies),
filename sanitization, the regex-based `{{field}}` template substitution
engine, citekey deduplication, frontmatter-to-citation conversion,
bibliography format dispatch, recursive source-file collection, and
unique-filename selection.

Strings are modelled as `List Char`.  Each JavaScript string operation used
by the code (`String.prototype.replace` with the specific regexes appearing
in the source, `trim`, `substring`, `charAt`, `toLowerCase`/`toUpperCase`,
`split`, `slice(-2)`, `Number.prototype.toString`) is given an explicit
executable model.  External collaborators (the citation-js formatting
library, JSON/YAML serialization, the Obsidian vault API) are abstracted as
function parameters; everything the repository itself computes is modelled
from its source.
-/

namespace Biblio

/-- JS whitespace relevant to `String.prototype.trim` and `\s`
(the ASCII whitespace characters plus NBSP; the strings manipulated by the
plugin contain no other Unicode space). -/
def jsSpace (c : Char) : Bool :=
  c = ' ' || c = '\t' || c = '\n' || c = '\r' ||
  c = '\x0b' || c = '\x0c' || c = ' '

/-- Model of `String.prototype.trim`: drop JS whitespace from both ends. -/
def jsTrim (s : List Char) : List Char :=
  List.rdropWhile jsSpace (s.dropWhile jsSpace)

/--
Generic model of `String.prototype.replace` with a `/g` regex: at each
position `tryMatch` attempts to match the regex there, returning the
replacement text and the input remaining after the match; on failure the
scan advances one character.  Replacements are not rescanned, exactly as in
JS.  `H` records that all the regexes we model only produce non-empty
matches, which is what makes the scan terminate.
-/
def jsReplaceAll (tryMatch : List Char → Option (List Char × List Char))
    (H : ∀ l rep r, tryMatch l = some (rep, r) → r.length < l.length) :
    List Char → List Char
  | [] => []
  | c :: rest =>
    match h : tryMatch (c :: rest) with
    | some (rep, remaining) => rep ++ jsReplaceAll tryMatch H remaining
    | none => c :: jsReplaceAll tryMatch H rest
termination_by l => l.length
decreasing_by
  · exact H _ _ _ h
  · simp

/-- Scan up to (and over) the next occurrence of `stop`: returns the
characters strictly before it and the characters strictly after it, or
`none` when `stop` does not occur.  This is the deterministic content of a
greedy `[^stop]*` followed by `stop`. -/
def scanTo (stop : Char) (l : List Char) : Option (List Char × List Char) :=
  let body := l.takeWhile (· ≠ stop)
  match l.dropWhile (· ≠ stop) with
  | _ :: tail => some (body, tail)
  | [] => none

/-- Match of `/<[^>]*>/` at the current position (replacement `""`). -/
def tryTag : List Char → Option (List Char × List Char)
  | c :: rest =>
    if c = '<' then
      match scanTo '>' rest with
      | some (_, tail) => some ([], tail)
      | none => none
    else none
  | [] => none

/-- Match of `/&[^;]+;/` at the current position (replacement `""`). -/
def tryEntity : List Char → Option (List Char × List Char)
  | c :: rest =>
    if c = '&' then
      match scanTo ';' rest with
      | some (body, tail) => if body = [] then none else some ([], tail)
      | none => none
    else none
  | [] => none

def isAsciiLetter (c : Char) : Bool :=
  ('a' ≤ c && c ≤ 'z') || ('A' ≤ c && c ≤ 'Z')

/-- Match of `/\\[a-zA-Z]+\{([^}]+)\}/` at the current position
(replacement `"$1"`, i.e. the captured group). -/
def tryLatex : List Char → Option (List Char × List Char)
  | c :: rest =>
    if c = '\\' then
      let letters := rest.takeWhile isAsciiLetter
      match rest.dropWhile isAsciiLetter with
      | b :: rest2 =>
        if letters = [] ∨ b ≠ '{' then none
        else
          match scanTo '}' rest2 with
          | some (body, tail) => if body = [] then none else some (body, tail)
          | none => none
      | [] => none
    else none
  | [] => none

/-- Match of the template-variable regex `/\{\{([^}]+)\}\}/` at the current
position; the replacement is the JS callback
`value !== undefined && value !== null ? String(value) : ""` where
`value = data[fieldPath.trim()]`, modelled by the lookup `d` (which returns
the `String(...)` form of defined non-null values and `none` otherwise). -/
def tryTemplateVar (d : List Char → Option (List Char)) :
    List Char → Option (List Char × List Char)
  | c1 :: c2 :: rest =>
    if c1 = '{' ∧ c2 = '{' then
      let name := rest.takeWhile (· ≠ '}')
      match rest.dropWhile (· ≠ '}') with
      | _ :: b2 :: tail =>
        if b2 = '}' ∧ name ≠ [] then some ((d (jsTrim name)).getD [], tail)
        else none
      | _ => none
    else none
  | _ => none

/-- Collapse of `/[\s-]+/g` into `"-"` (used by the part_005 variant of
`sanitizeFilename`): each maximal run of whitespace/hyphen characters
becomes a single hyphen. -/
def collapseSpaceHyphen : List Char → List Char
  | [] => []
  | c :: rest =>
    if jsSpace c || c = '-' then
      '-' :: collapseSpaceHyphen (rest.dropWhile (fun x => jsSpace x || x = '-'))
    else
      c :: collapseSpaceHyphen rest
termination_by l => l.length
decreasing_by
  · have h1 : (rest.dropWhile (fun x => jsSpace x || x = '-')).length ≤ rest.length :=
      (List.dropWhile_suffix _).sublist.length_le
    simp only [List.length_cons]
    omega
  · simp

/-- Model of `.replace(/^-+|-+$/g, "")`: the anchored alternation removes
exactly the leading run and the trailing run of hyphens. -/
def trimHyphens (l : List Char) : List Char :=
  List.rdropWhile (· = '-') (l.dropWhile (· = '-'))

end Biblio

namespace Biblio

/-! ## Decimal rendering: `Number.prototype.toString` on naturals -/

/-- Fuel-driven decimal digit production; `fuel > n` always suffices. -/
def natDigitsAux : Nat → Nat → List Char
  | 0, _ => []
  | fuel + 1, n =>
    if n < 10 then [Nat.digitChar n]
    else natDigitsAux fuel (n / 10) ++ [Nat.digitChar (n % 10)]

/-- Model of `n.toString()` (base 10) for a natural number. -/
def natToString (n : Nat) : List Char :=
  natDigitsAux (n + 1) n

/-- Model of `s.slice(-2)`: the last two characters (the whole string when
it is shorter). -/
def jsSliceLast2 (s : List Char) : List Char :=
  s.drop (s.length - 2)

/-- Decimal parsing, the inverse of `natToString` (used to prove that
decimal rendering is injective). -/
def parseDec (l : List Char) : Nat :=
  l.foldl (fun a c => 10 * a + (c.toNat - 48)) 0

/-! ## Character-class replacements shared by the sanitizers -/

/-- The invalid filename characters of the class `[<>:"/\\|?*]`. -/
def invalidFileChar (c : Char) : Bool :=
  c = '<' || c = '>' || c = ':' || c = '"' || c = '/' ||
  c = '\\' || c = '|' || c = '?' || c = '*'

/-- `.replace(/[{}$]/g, "")`. -/
def removeBraces (l : List Char) : List Char :=
  l.filter (fun c => !(c = '{' || c = '}' || c = '$'))

/-- `.replace(/[,:;]/g, " ")`. -/
def punctToSpace (l : List Char) : List Char :=
  l.map (fun c => if c = ',' || c = ':' || c = ';' then ' ' else c)

/-- `.replace(/[—–]/g, "-")` (em dash and en dash to hyphen). -/
def dashesToHyphen (l : List Char) : List Char :=
  l.map (fun c => if c = '—' || c = '–' then '-' else c)

/-- `.replace(/[<>:"/\\|?*]/g, "")`. -/
def removeInvalid (l : List Char) : List Char :=
  l.filter (fun c => !invalidFileChar c)

/-! ## The regex pipelines built from `jsReplaceAll` -/

theorem tryTag_consumes :
    ∀ l rep r, tryTag l = some (rep, r) → r.length < l.length := by
  intro l rep r h
  match l with
  | [] => simp [tryTag] at h
  | c :: rest =>
    simp only [tryTag] at h
    split at h
    · cases h' : rest.dropWhile (· ≠ '>') with
      | nil => rw [scanTo, h'] at h; simp at h
      | cons b tail =>
        rw [scanTo, h'] at h
        simp only [Option.some.injEq, Prod.mk.injEq] at h
        obtain ⟨-, rfl⟩ := h
        have h2 : (b :: tail).length ≤ rest.length := by
          rw [← h']
          exact (List.dropWhile_suffix _).sublist.length_le
        simp only [List.length_cons] at h2 ⊢
        omega
    · simp at h

theorem tryEntity_consumes :
    ∀ l rep r, tryEntity l = some (rep, r) → r.length < l.length := by
  intro l rep r h
  match l with
  | [] => simp [tryEntity] at h
  | c :: rest =>
    simp only [tryEntity] at h
    split at h
    · cases h' : rest.dropWhile (· ≠ ';') with
      | nil => rw [scanTo, h'] at h; simp at h
      | cons b tail =>
        rw [scanTo, h'] at h
        simp only [] at h
        split at h
        · simp at h
        · simp only [Option.some.injEq, Prod.mk.injEq] at h
          obtain ⟨-, rfl⟩ := h
          have h2 : (b :: tail).length ≤ rest.length := by
            rw [← h']
            exact (List.dropWhile_suffix _).sublist.length_le
          simp only [List.length_cons] at h2 ⊢
          omega
    · simp at h

theorem tryLatex_consumes :
    ∀ l rep r, tryLatex l = some (rep, r) → r.length < l.length := by
  intro l rep r h
  match l with
  | [] => simp [tryLatex] at h
  | c :: rest =>
    simp only [tryLatex] at h
    split at h
    · cases h1 : rest.dropWhile isAsciiLetter with
      | nil => rw [h1] at h; simp at h
      | cons b rest2 =>
        rw [h1] at h
        simp only [] at h
        split at h
        · simp at h
        · cases h2 : rest2.dropWhile (· ≠ '}') with
          | nil => rw [scanTo, h2] at h; simp at h
          | cons b2 tail =>
            rw [scanTo, h2] at h
            simp only [] at h
            split at h
            · simp at h
            · simp only [Option.some.injEq, Prod.mk.injEq] at h
              obtain ⟨-, rfl⟩ := h
              have ha : (b :: rest2).length ≤ rest.length := by
                rw [← h1]
                exact (List.dropWhile_suffix _).sublist.length_le
              have hb : (b2 :: tail).length ≤ rest2.length := by
                rw [← h2]
                exact (List.dropWhile_suffix _).sublist.length_le
              simp only [List.length_cons] at ha hb ⊢
              omega
    · simp at h

theorem tryTemplateVar_consumes (d : List Char → Option (List Char)) :
    ∀ l rep r, tryTemplateVar d l = some (rep, r) → r.length < l.length := by
  intro l rep r h
  match l with
  | [] => simp [tryTemplateVar] at h
  | [c] => simp [tryTemplateVar] at h
  | c1 :: c2 :: rest =>
    simp only [tryTemplateVar] at h
    split at h
    · cases h1 : rest.dropWhile (· ≠ '}') with
      | nil => rw [h1] at h; simp at h
      | cons b1 t1 =>
        cases h2 : t1 with
        | nil => rw [h1, h2] at h; simp at h
        | cons b2 tail =>
          rw [h1, h2] at h
          simp only [] at h
          split at h
          · simp only [Option.some.injEq, Prod.mk.injEq] at h
            obtain ⟨-, rfl⟩ := h
            have ha : (b1 :: t1).length ≤ rest.length := by
              rw [← h1]
              exact (List.dropWhile_suffix _).sublist.length_le
            rw [h2] at ha
            simp only [List.length_cons] at ha ⊢
            omega
          · simp at h
    · simp at h

/-- `.replace(/<[^>]*>/g, "")`. -/
def replaceTags : List Char → List Char :=
  jsReplaceAll tryTag tryTag_consumes

/-- `.replace(/&[^;]+;/g, "")`. -/
def replaceEntities : List Char → List Char :=
  jsReplaceAll tryEntity tryEntity_consumes

/-- `.replace(/\\[a-zA-Z]+\{([^}]+)\}/g, "$1")`. -/
def replaceLatex : List Char → List Char :=
  jsReplaceAll tryLatex tryLatex_consumes

/-- The regex-based `{{field}}` substitution engine:
`template.replace(/\{\{([^}]+)\}\}/g, cb)` where `cb` substitutes the
(stringified) data value of the trimmed field name, or `""` when the value
is undefined or null.  This is `SourceService.renderTemplate`'s final
statement and `SourceImporter.renderTemplateWithRegex`; the lookup `d`
abstracts the prepared `templateData` record. -/
def renderTemplateRegex (d : List Char → Option (List Char)) :
    List Char → List Char :=
  jsReplaceAll (tryTemplateVar d) (tryTemplateVar_consumes d)

end Biblio

namespace Biblio

/-! ## CitekeyGenerator (src/src/utils/api.ts; identical logic in the
bundled copy at src/unnamed/part_010, whose dash character class is the
same two dashes with mangled encoding) -/

/-- `w.charAt(0).toUpperCase() + w.substring(1).toLowerCase()`. -/
def capitalizeWord (w : List Char) : List Char :=
  match w with
  | [] => []
  | c :: r => c.toUpper :: r.map Char.toLower

/-- `w.charAt(0).toUpperCase() + w.substring(1)`. -/
def upperFirst (w : List Char) : List Char :=
  match w with
  | [] => []
  | c :: r => c.toUpper :: r

namespace CitekeyGenerator

/-- `extractLastName`: split on `","` and trim the parts; two parts mean
`"Smith, John"` (take the first), otherwise take the last space-separated
word of the first part. -/
def extractLastName (authorName : List Char) : List Char :=
  let parts := (List.splitOn ',' authorName).map jsTrim
  match parts with
  | [p, _] => p
  | p :: _ => (List.splitOn ' ' p).getLastD []
  | [] => []

/-- `year.toString().slice(-2)`. -/
def yearSuffix (year : Nat) : List Char :=
  jsSliceLast2 (natToString year)

/-- The title-cleaning `replace` chain inside `generateCitekey`'s
no-author branch. -/
def cleanTitle (t : List Char) : List Char :=
  jsTrim (removeInvalid (dashesToHyphen (punctToSpace (removeBraces
    (replaceLatex (replaceEntities (replaceTags t)))))))

/-- `CitekeyGenerator.generateCitekey(authors, year, title?)`. -/
def generateCitekey (authors : List (List Char)) (year : Nat)
    (title : Option (List Char) := none) : List Char :=
  match authors with
  | [] =>
    match title with
    | some t =>
      if (jsTrim t).length > 0 then
        let titleBase := ((cleanTitle t).take 5).map Char.toLower
        upperFirst titleBase ++ yearSuffix year
      else "Unknown".toList ++ yearSuffix year
    | none => "Unknown".toList ++ yearSuffix year
  | [a] =>
    capitalizeWord ((extractLastName a).take 3) ++ yearSuffix year
  | a :: b :: _ =>
    capitalizeWord ((extractLastName a).take 2) ++
      capitalizeWord ((extractLastName b).take 2) ++ yearSuffix year

/-- `generateFromTitleAndAuthors(title, authors, year)` forwards the title. -/
def generateFromTitleAndAuthors (title : List Char) (authors : List (List Char))
    (year : Nat) : List Char :=
  generateCitekey authors year (some title)

/-- `CitekeyGenerator.sanitizeFilename` (api.ts / part_010 variant): the
raw replace chain ending `.replace(/^-+|-+$/g, "").trim()`. -/
def sanitizeFilename (title : List Char) : List Char :=
  jsTrim (trimHyphens (removeInvalid (dashesToHyphen (punctToSpace
    (removeBraces (replaceLatex (replaceEntities (replaceTags title))))))))

end CitekeyGenerator

/-! The older `CitekeyGenerator` copy bundled at src/unnamed/part_005:
`generateCitekey(authors, year)` has no title parameter. -/
namespace CitekeyGeneratorOld

/-- `generateCitekey(authors, year)` of the part_005 copy: an empty author
list yields the constant `"Unknown" + yy` whatever the title was. -/
def generateCitekey (authors : List (List Char)) (year : Nat) : List Char :=
  match authors with
  | [] => "Unknown".toList ++ CitekeyGenerator.yearSuffix year
  | [a] =>
    capitalizeWord ((CitekeyGenerator.extractLastName a).take 3) ++
      CitekeyGenerator.yearSuffix year
  | a :: b :: _ =>
    capitalizeWord ((CitekeyGenerator.extractLastName a).take 2) ++
      capitalizeWord ((CitekeyGenerator.extractLastName b).take 2) ++
      CitekeyGenerator.yearSuffix year

/-- `generateFromTitleAndAuthors(title, authors, year)` of the part_005
copy: the title argument is accepted and ignored. -/
def generateFromTitleAndAuthors (title : List Char) (authors : List (List Char))
    (year : Nat) : List Char :=
  generateCitekey authors year

/-- `sanitizeFilename` of the part_005 copy: same chain but with
`.replace(/[\s-]+/g, "-")` before the leading/trailing hyphen strip. -/
def sanitizeFilename (title : List Char) : List Char :=
  jsTrim (trimHyphens (collapseSpaceHyphen (removeInvalid (dashesToHyphen
    (punctToSpace (removeBraces (replaceLatex (replaceEntities
      (replaceTags title)))))))))

end CitekeyGeneratorOld

/-! ## Spec-side formulations for the citekey refinement claim -/

/-- The spec's "last two digits of the year": its tens digit and its ones
digit. -/
def specLastTwoDigits (year : Nat) : List Char :=
  [Nat.digitChar (year / 10 % 10), Nat.digitChar (year % 10)]

end Biblio

namespace Biblio

/-! ## JavaScript values and objects (frontmatter fields, CSL entries) -/

/-- Atomic JS values appearing as array elements. -/
inductive JsAtom where
  | str (s : List Char)
  | num (n : Int)
deriving DecidableEq

/-- The JS values the plugin's records hold: strings, numbers, arrays,
the `{ "date-parts": [[x]] }` object built for `issued`, and CSL name
arrays of `{ family, given }` objects. -/
inductive JsVal where
  | str (s : List Char)
  | num (n : Int)
  | arr (elems : List JsAtom)
  | dateParts (part : JsAtom)
  | names (persons : List ((List Char) × (List Char)))
deriving DecidableEq

/-- Property read `obj[k]` on an object modelled as an association list
(keys unique, insertion order kept). -/
def jsGet {α : Type} (obj : List ((List Char) × α)) (k : List Char) : Option α :=
  (obj.find? (fun p => p.1 = k)).map (·.2)

/-- Property write `obj[k] = v`: overwrite in place, else append. -/
def jsSet {α : Type} : List ((List Char) × α) → List Char → α → List ((List Char) × α)
  | [], k, v => [(k, v)]
  | (k', v') :: rest, k, v =>
    if k' = k then (k', v) :: rest else (k', v') :: jsSet rest k v

/-! ## SourceData and export-time deduplication (exportbib copies) -/

/-- The `SourceData` record of the exporter. -/
structure SourceData where
  citekey : List Char
  title : List Char
  author : List (List Char)
  year : Nat
  type : List Char
  journal : Option (List Char) := none
  publisher : Option (List Char) := none
  pages : Option (List Char) := none
  volume : Option (List Char) := none
  issue : Option (List Char) := none
  doi : Option (List Char) := none
  isbn : Option (List Char) := none
  url : Option (List Char) := none
  abstract : Option (List Char) := none
  keywords : Option (List (List Char)) := none
  note : Option (List Char) := none
  filepath : List Char
deriving DecidableEq

/-- The first-occurrence-keeping key scan shared by both deduplication
sites: a JS `Map`/`Set` of seen keys, records with unseen keys kept in
order, records with seen keys counted as duplicates.  `seen` is the set of
keys already in the map. -/
def dedupByKey {α κ : Type} [DecidableEq κ] (key : α → κ) :
    List α → List κ → List α × Nat
  | [], _ => ([], 0)
  | s :: rest, seen =>
    if key s ∈ seen then
      let r := dedupByKey key rest seen
      (r.1, r.2 + 1)
    else
      let r := dedupByKey key rest (key s :: seen)
      (s :: r.1, r.2)

/-- Result of `BibliographyExporter.deduplicateSources` (the
`duplicateCitekeys` detail map only feeds `console.warn` text and is not
modelled). -/
structure DedupResult where
  uniqueSources : List SourceData
  duplicatesFound : Nat
deriving DecidableEq

/-- `BibliographyExporter.deduplicateSources(sources)`: insertion-ordered
`Map` keyed by citekey, first occurrence kept;
`Array.from(sourcesMap.values())` returns the kept records in input
order. -/
def deduplicateSources (sources : List SourceData) : DedupResult :=
  let r := dedupByKey (fun s => s.citekey) sources []
  ⟨r.1, r.2⟩

/-- `mapTypstTypeToCsl`: `typeMap[typstType] || "document"`. -/
def mapTypstTypeToCsl (t : List Char) : List Char :=
  if t = "book".toList then "book".toList
  else if t = "article".toList then "article-journal".toList
  else if t = "inproceedings".toList then "paper-conference".toList
  else if t = "website".toList then "webpage".toList
  else if t = "misc".toList then "document".toList
  else "document".toList

/-- Author-name split of `sourceToCsl`: `"Smith, John"` gives
`{family: "Smith", given: "John"}`, otherwise the last space-separated
word is the family name and the rest the given name. -/
def cslAuthor (authorName : List Char) : (List Char) × (List Char) :=
  let parts := (List.splitOn ',' authorName).map jsTrim
  match parts with
  | [fam, giv] => (fam, giv)
  | p :: _ =>
    let words := List.splitOn ' ' p
    (words.getLastD [], List.intercalate " ".toList words.dropLast)
  | [] => ([], [])

/-- Optional string field: `if (source.f) csl.k = source.f` (JS truthiness
makes the empty string falsy). -/
def addStrField (e : List ((List Char) × JsVal)) (k : List Char)
    (v : Option (List Char)) : List ((List Char) × JsVal) :=
  match v with
  | some s => if s = [] then e else jsSet e k (JsVal.str s)
  | none => e

/-- `BibliographyExporter.sourceToCsl(source)`. -/
def sourceToCsl (source : SourceData) : List ((List Char) × JsVal) :=
  let e : List ((List Char) × JsVal) :=
    [("id".toList, JsVal.str source.citekey),
     ("title".toList, JsVal.str source.title),
     ("type".toList, JsVal.str (mapTypstTypeToCsl source.type)),
     ("issued".toList, JsVal.dateParts (JsAtom.num source.year))]
  let e := if source.author.length > 0 then
      jsSet e "author".toList (JsVal.names (source.author.map cslAuthor))
    else e
  let e := addStrField e "container-title".toList source.journal
  let e := addStrField e "publisher".toList source.publisher
  let e := addStrField e "page".toList source.pages
  let e := addStrField e "volume".toList source.volume
  let e := addStrField e "issue".toList source.issue
  let e := addStrField e "DOI".toList source.doi
  let e := addStrField e "ISBN".toList source.isbn
  let e := addStrField e "URL".toList source.url
  let e := addStrField e "abstract".toList source.abstract
  let e := match source.keywords with
    | some ks => jsSet e "keyword".toList (JsVal.arr (ks.map JsAtom.str))
    | none => e
  e

/-- `BibliographyExporter.generateBibtex(sources)`: the empty-input guard,
the deduplication pass, and the hand-off of the deduplicated CSL entries to
citation-js (abstracted as `citeFormat`, the external
`new Cite(...).format("bibtex", ...)`). -/
def generateBibtex (citeFormat : List (List ((List Char) × JsVal)) → List Char)
    (sources : List SourceData) : List Char :=
  if sources.length = 0 then "% No sources found".toList
  else citeFormat (((deduplicateSources sources).uniqueSources).map sourceToCsl)

/-- The exporter's duplicate-warning gate:
`if (deduplicatedSources.duplicatesFound > 0) { console.warn(...); new Notice(...) }`. -/
def generateBibtexWarns (sources : List SourceData) : Bool :=
  decide (0 < (deduplicateSources sources).duplicatesFound)

/-! ## Template segments: the vocabulary for the substitution claim -/

/-- A template decomposed into literal text and `{{name}}` placeholders. -/
inductive TemplateSeg where
  | lit (s : List Char)
  | hole (name : List Char)

/-- The template text a segment denotes. -/
def segText : TemplateSeg → List Char
  | .lit s => s
  | .hole n => '{' :: '{' :: (n ++ ['}', '}'])

/-- What the engine should produce for a segment: literals unchanged, a
placeholder replaced by the (stringified) data value of its trimmed name,
or `""` when that value is undefined/null. -/
def segRendered (d : List Char → Option (List Char)) : TemplateSeg → List Char
  | .lit s => s
  | .hole n => (d (jsTrim n)).getD []

/-- Well-formedness: literal text free of `'{'`, placeholder names
non-empty and free of `'}'` (the shape the regex `\{\{([^}]+)\}\}`
matches). -/
def segWF : TemplateSeg → Prop
  | .lit s => '{' ∉ s
  | .hole n => n ≠ [] ∧ '}' ∉ n

end Biblio

namespace Biblio

/-! ## Frontmatter records and `convertFrontmatterToCitationJS` -/

/-- A YAML frontmatter block / citation entry: a JS object as an
association list. -/
abbrev JsObj : Type := List ((List Char) × JsVal)

/-- JS truthiness of the values a frontmatter field can hold. -/
def truthy : JsVal → Bool
  | .str s => !s.isEmpty
  | .num n => n != 0
  | .arr _ => true
  | .dateParts _ => true
  | .names _ => true

def isArr : JsVal → Bool
  | .arr _ => true
  | .names _ => true
  | _ => false

/-- `(-5).toString()` and friends. -/
def intToString (n : Int) : List Char :=
  if n < 0 then '-' :: natToString n.natAbs else natToString n.toNat

def jsAtomToString : JsAtom → List Char
  | .str s => s
  | .num n => intToString n

/-- `String(value)` / `value.toString()` (arrays join with `","`; the one
object shape we build renders as `[object Object]`, though no claim
evaluates it). -/
def jsValToString : JsVal → List Char
  | .str s => s
  | .num n => intToString n
  | .arr elems => List.intercalate ",".toList (elems.map jsAtomToString)
  | .dateParts _ => "[object Object]".toList
  | .names _ => "[object Object]".toList

/-- `a || b` on JS values where `a` may be undefined. -/
def jsOrVal (a : Option JsVal) (b : JsVal) : JsVal :=
  match a with
  | some v => if truthy v then v else b
  | none => b

/-- `a || b` where both sides may be undefined. -/
def jsOrOpt (a b : Option JsVal) : Option JsVal :=
  match a with
  | some v => if truthy v then some v else b
  | none => b

/-- `a || b` on strings (mapping values). -/
def strOr (a : Option (List Char)) (b : List Char) : List Char :=
  match a with
  | some s => if s.isEmpty then b else s
  | none => b

/-- `BIB_FIELDS` from src/src/types/settings.ts. -/
def BIB_FIELDS : List (List Char) :=
  ["title".toList, "author".toList, "year".toList, "publisher".toList,
   "journal".toList, "booktitle".toList, "doi".toList, "url".toList,
   "isbn".toList, "issn".toList, "pages".toList, "volume".toList,
   "number".toList, "keywords".toList, "abstract".toList, "note".toList,
   "language".toList, "editor".toList, "series".toList, "edition".toList,
   "chapter".toList, "institution".toList, "organization".toList,
   "school".toList, "address".toList, "month".toList, "day".toList]

/-- `DEFAULT_SETTINGS.fieldMappings` from src/src/types/settings.ts
(bibliography field -> frontmatter key). -/
def defaultFieldMappings : List ((List Char) × (List Char)) :=
  [("id".toList, "citekey".toList),
   ("type".toList, "bibtype".toList),
   ("title".toList, "title".toList),
   ("author".toList, "author".toList),
   ("editor".toList, "editor".toList),
   ("translator".toList, "translator".toList),
   ("publisher".toList, "publisher".toList),
   ("publisher-place".toList, "publisher-place".toList),
   ("container-title".toList, "journal".toList),
   ("volume".toList, "volume".toList),
   ("issue".toList, "number".toList),
   ("page".toList, "pages".toList),
   ("issued".toList, "year".toList),
   ("DOI".toList, "doi".toList),
   ("ISBN".toList, "isbn".toList),
   ("ISSN".toList, "issn".toList),
   ("URL".toList, "url".toList),
   ("abstract".toList, "abstract".toList),
   ("keyword".toList, "keywords".toList),
   ("note".toList, "note".toList),
   ("language".toList, "language".toList),
   ("edition".toList, "edition".toList),
   ("series".toList, "series".toList),
   ("chapter-number".toList, "chapter".toList),
   ("event-title".toList, "booktitle".toList),
   ("genre".toList, "genre".toList),
   ("accessed".toList, "accessed".toList)]

/-- First occurrence of four consecutive digits: `.match(/\d{4}/)`. -/
def match4Digits : List Char → Option (List Char)
  | a :: b :: c :: d :: rest =>
    if a.isDigit ∧ b.isDigit ∧ c.isDigit ∧ d.isDigit then some [a, b, c, d]
    else match4Digits (b :: c :: d :: rest)
  | _ => none
termination_by l => l.length
decreasing_by simp

/-- `frontmatter.category?.[0]` (a string indexes to a one-character
string; other non-array values have no `0` element). -/
def categoryHead (fm : JsObj) : Option JsVal :=
  match jsGet fm "category".toList with
  | some (JsVal.arr elems) =>
    (elems.head?).map (fun a =>
      match a with
      | .str s => JsVal.str s
      | .num n => JsVal.num n)
  | some (JsVal.str s) =>
    match s with
    | [] => none
    | c :: _ => some (JsVal.str [c])
  | _ => none

/-- `SourceService.mapToBibTeXType(bibType, category)`: keep a truthy
non-`"misc"` bibType, otherwise switch on the lowercased category
(`book | paper | website | thesis | report`, defaulting to `article`).
A non-string category behaves as the default branch. -/
def mapToBibTeXType (bibType : Option JsVal) (category : Option JsVal) : JsVal :=
  let fallback : JsVal :=
    match category with
    | some (JsVal.str s) =>
      let lower := s.map Char.toLower
      if lower = "book".toList then JsVal.str "book".toList
      else if lower = "paper".toList then JsVal.str "article".toList
      else if lower = "website".toList then JsVal.str "webpage".toList
      else if lower = "thesis".toList then JsVal.str "thesis".toList
      else if lower = "report".toList then JsVal.str "report".toList
      else JsVal.str "article".toList
    | _ => JsVal.str "article".toList
  match bibType with
  | some v => if truthy v ∧ v ≠ JsVal.str "misc".toList then v else fallback
  | none => fallback

/-- One iteration of the `for (const bibField of BIB_FIELDS)` loop. -/
def applyBibField (mappings : List ((List Char) × (List Char))) (fm : JsObj)
    (e : JsObj) (bibField : List Char) : JsObj :=
  match jsGet mappings bibField with
  | none => e
  | some fmKey =>
    if fmKey.isEmpty then e
    else
      match jsGet fm fmKey with
      | none => e
      | some v =>
        if ¬ truthy v then e
        else if bibField = "author".toList ∧ isArr v then
          jsSet e "author".toList v
        else if bibField = "keyword".toList ∧ isArr v then
          jsSet e "keyword".toList v
        else
          match v with
          | JsVal.arr elems =>
            if 0 < elems.length then
              jsSet e bibField
                (JsVal.str (List.intercalate ", ".toList (elems.map jsAtomToString)))
            else e
          | _ =>
            if (jsTrim (jsValToString v)).isEmpty then e
            else jsSet e bibField v

/-- The `issued` special case after the loop. -/
def applyIssued (mappings : List ((List Char) × (List Char))) (fm : JsObj)
    (e : JsObj) : JsObj :=
  let yearKey := strOr (jsGet mappings "issued".toList) "year".toList
  match jsGet fm yearKey with
  | none => e
  | some v =>
    if ¬ truthy v then e
    else
      match v with
      | JsVal.str s =>
        (match match4Digits s with
         | some ds => jsSet e "issued".toList (JsVal.dateParts (JsAtom.str ds))
         | none => e)
      | JsVal.num n => jsSet e "issued".toList (JsVal.dateParts (JsAtom.num n))
      | _ => e

/-- The `DOI` special case after the loop (URL/`doi:` prefixes stripped). -/
def applyDoi (mappings : List ((List Char) × (List Char))) (fm : JsObj)
    (e : JsObj) : JsObj :=
  let doiKey := strOr (jsGet mappings "DOI".toList) "doi".toList
  match jsGet fm doiKey with
  | some (JsVal.str s) =>
    if s.isEmpty then e
    else
      let doi :=
        if List.isPrefixOf "https://doi.org/".toList s then s.drop 16
        else if List.isPrefixOf "http://dx.doi.org/".toList s then s.drop 18
        else if List.isPrefixOf "doi:".toList s then jsTrim (s.drop 4)
        else s
      jsSet e "DOI".toList (JsVal.str doi)
  | _ => e

/-- `SourceService.convertFrontmatterToCitationJS(frontmatter)` with the
settings' field mappings as a parameter. -/
def convertFrontmatterToCitationJS (mappings : List ((List Char) × (List Char)))
    (fm : JsObj) : Option JsObj :=
  match jsGet fm "citekey".toList with
  | none => none
  | some ck =>
    if ¬ truthy ck then none
    else
      let idVal := jsOrVal
        (match jsGet mappings "id".toList with
         | some k => jsGet fm k
         | none => none) ck
      let typeArg := jsOrOpt
        (match jsGet mappings "type".toList with
         | some k => jsGet fm k
         | none => none)
        (jsGet fm "bibtype".toList)
      let e : JsObj :=
        [("id".toList, idVal),
         ("type".toList, mapToBibTeXType typeArg (categoryHead fm))]
      let e := BIB_FIELDS.foldl (applyBibField mappings fm) e
      let e := applyIssued mappings fm e
      let e := applyDoi mappings fm e
      some e

end Biblio

namespace Biblio

/-! ## The vault tree and recursive source-file collection -/

/-- A markdown/other file of the vault with its metadata-cache
frontmatter. -/
structure TFileModel where
  basename : List Char
  extension : List Char
  cache : Option JsObj
deriving DecidableEq

/-- `cache?.frontmatter?.citekey` is truthy. -/
def cacheCitekeyTruthy (m : TFileModel) : Bool :=
  match m.cache with
  | some fm =>
    match jsGet fm "citekey".toList with
    | some v => truthy v
    | none => false
  | none => false

mutual
/-- An entry of a vault folder: a file or a sub-folder. -/
inductive VaultItem where
  | file (f : TFileModel)
  | folder (name : List Char) (children : VaultForest)

/-- The ordered children of a folder. -/
inductive VaultForest where
  | nil
  | cons (head : VaultItem) (tail : VaultForest)
end

mutual
/-- `SourceService.searchSourceFilesRecursive` on one child: keep a
markdown file whose cached frontmatter has a truthy `citekey`, recurse
into sub-folders. -/
def searchSourceFilesItem : VaultItem → List TFileModel
  | .file f =>
    if f.extension = "md".toList ∧ cacheCitekeyTruthy f then [f] else []
  | .folder _ cs => searchSourceFilesForest cs

/-- `SourceService.searchSourceFilesRecursive` over a folder's children. -/
def searchSourceFilesForest : VaultForest → List TFileModel
  | .nil => []
  | .cons i rest => searchSourceFilesItem i ++ searchSourceFilesForest rest
end

mutual
/-- Every file in the tree, in traversal order (the claim's vocabulary for
"the vault's folder tree"). -/
def allFilesItem : VaultItem → List TFileModel
  | .file f => [f]
  | .folder _ cs => allFilesForest cs

def allFilesForest : VaultForest → List TFileModel
  | .nil => []
  | .cons i rest => allFilesItem i ++ allFilesForest rest
end

/-! ## `SourceService.generateBibliography`: collection, deduplication and
format dispatch -/

/-- The per-file loop of `generateBibliography`: frontmatter with a falsy
`citekey` is skipped, a first-seen citekey contributes its converted
citation entry, an already-seen citekey only increments
`duplicatesFound`.  `seen` is the key set of the `seenCitekeys` map. -/
def collectCiteData (mappings : List ((List Char) × (List Char))) :
    List TFileModel → List JsVal → List JsObj × Nat
  | [], _ => ([], 0)
  | f :: rest, seen =>
    match f.cache with
    | none => collectCiteData mappings rest seen
    | some fm =>
      match jsGet fm "citekey".toList with
      | none => collectCiteData mappings rest seen
      | some ck =>
        if ¬ truthy ck then collectCiteData mappings rest seen
        else if ck ∈ seen then
          let r := collectCiteData mappings rest seen
          (r.1, r.2 + 1)
        else
          let r := collectCiteData mappings rest (ck :: seen)
          ((match convertFrontmatterToCitationJS mappings fm with
            | some e => [e]
            | none => []) ++ r.1, r.2)

/-- The external citation-js/JSON/YAML machinery of the `switch`:
`cite.format("bibtex", ...)`, `cite.format("hayagriva")` together with its
parse/patch/stringify YAML post-processing, and
`JSON.stringify(citeData, null, 2)`. -/
structure CiteJS where
  formatBibtex : List JsObj → List Char
  formatHayagriva : List JsObj → List Char
  stringifyCslJson : List JsObj → List Char

/-- The `citeData` list `generateBibliography` ends up formatting: the
collected converted entries, re-deduplicated by entry `id` when duplicates
were counted (`sourcesFolder` is the resolved folder's children, `none`
when the path is missing or not a folder, in which case
`findAllSourceFiles` returns no files). -/
def citeDataOf (mappings : List ((List Char) × (List Char)))
    (sourcesFolder : Option VaultForest) : List JsObj :=
  let sourceFiles :=
    match sourcesFolder with
    | some forest => searchSourceFilesForest forest
    | none => []
  let r := collectCiteData mappings sourceFiles []
  if 0 < r.2 then (dedupByKey (fun e => jsGet e "id".toList) r.1 []).1 else r.1

/-- `SourceService.generateBibliography(sourcesFolder, format)`.  Errors
thrown are modelled as `Except.error` carrying the message of the error the
`catch` block rethrows. -/
def generateBibliography (ext : CiteJS)
    (mappings : List ((List Char) × (List Char)))
    (sourcesFolder : Option VaultForest) (format : List Char) :
    Except (List Char) (List Char) :=
  let citeData := citeDataOf mappings sourcesFolder
  if citeData.length = 0 then .ok []
  else if format = "bibtex".toList then .ok (ext.formatBibtex citeData)
  else if format = "hayagriva".toList then .ok (ext.formatHayagriva citeData)
  else if format = "csl-json".toList then .ok (ext.stringifyCslJson citeData)
  else
    .error ("Failed to generate ".toList ++ format ++
      ": Unsupported format: ".toList ++ format)

/-- The service's duplicate-warning gate:
`if (duplicatesFound > 0) { console.warn(...); ...; new Notice(...) }`. -/
def generateBibliographyWarns (mappings : List ((List Char) × (List Char)))
    (sourceFiles : List TFileModel) : Bool :=
  decide (0 < (collectCiteData mappings sourceFiles []).2)

/-- The citekey values of the collected source files: one per file whose
cached frontmatter carries a truthy `citekey` (the records the
`generateBibliography` loop actually processes). -/
def collectedCitekeys (files : List TFileModel) : List JsVal :=
  files.filterMap (fun f =>
    match f.cache with
    | some fm =>
      match jsGet fm "citekey".toList with
      | some ck => if truthy ck then some ck else none
      | none => none
    | none => none)

/-! ## Unique filename selection (`SourceService.generateFilename` /
`getUniqueFilename`) -/

/-- Collapse of `/\s+/g` into a single space. -/
def collapseWhitespace : List Char → List Char
  | [] => []
  | c :: rest =>
    if jsSpace c then ' ' :: collapseWhitespace (rest.dropWhile jsSpace)
    else c :: collapseWhitespace rest
termination_by l => l.length
decreasing_by
  · have h1 : (rest.dropWhile jsSpace).length ≤ rest.length :=
      (List.dropWhile_suffix _).sublist.length_le
    simp only [List.length_cons]
    omega
  · simp

/-- The filename the `while (true)` loop tries on its `i`-th probe:
the base name, then `"base (copy)"`, then `"base (copy i)"`. -/
def candidateName (base : List Char) : Nat → List Char
  | 0 => base
  | 1 => base ++ " (copy)".toList
  | Nat.succ (Nat.succ n) =>
    base ++ " (copy ".toList ++ natToString (n + 2) ++ [')']

/-- `normalizePath(folderPath + "/" + filename + ".md")`; the host's
`normalizePath` leaves these already-normalized paths unchanged. -/
def notePath (folderPath fname : List Char) : List Char :=
  folderPath ++ ['/'] ++ fname ++ ".md".toList

/-- First probe index whose name is free.  The JS loop is unbounded; the
fuel only caps the search in the model, and the pigeonhole argument below
shows `existing.length + 1` probes always reach a free name, so the model
computes exactly what the loop returns. -/
def findFree (isTaken : Nat → Bool) : Nat → Nat → Nat
  | 0, i => i
  | fuel + 1, i => if isTaken i then findFree isTaken fuel (i + 1) else i

/-- `SourceService.getUniqueFilename(folderPath, baseFilename)`.
`existing` is the set of vault paths for which
`vault.getAbstractFileByPath` returns a file; `folderIsFolder` tells
whether the sources folder resolves to a `TFolder`. -/
def getUniqueFilename (existing : List (List Char)) (folderIsFolder : Bool)
    (folderPath baseFilename : List Char) : List Char :=
  if ¬ folderIsFolder then baseFilename
  else
    candidateName baseFilename
      (findFree
        (fun i => (notePath folderPath (candidateName baseFilename i)) ∈ existing)
        (existing.length + 1) 0)

/-- `SourceService.generateFilename(title, folderPath)`. -/
def generateFilename (existing : List (List Char)) (folderIsFolder : Bool)
    (title folderPath : List Char) : List Char :=
  let title := if title.isEmpty then "Untitled Source".toList else title
  let filename := jsTrim (collapseWhitespace (removeInvalid title))
  let filename :=
    if 50 < filename.length then filename.take 47 ++ "...".toList else filename
  getUniqueFilename existing folderIsFolder folderPath filename

end Biblio

namespace Biblio

/-- A concrete `templateData` lookup used to witness the substitution
claim. -/
def templateDataExample : List Char → Option (List Char) :=
  fun n => if n = "title".toList then some "Dune".toList else none

/-- A markdown file whose frontmatter carries the `citekey` field with the
empty string as value (`citekey: ""`): the field is present but JS-falsy. -/
def fileWithEmptyCitekey : TFileModel :=
  ⟨"note".toList, "md".toList, some [("citekey".toList, JsVal.str [])]⟩

/-- A frontmatter record with a citekey and a journal (the failing input
of the field-mapping claim). -/
def fmJournalExample : JsObj :=
  [("citekey".toList, JsVal.str "Smith20".toList),
   ("journal".toList, JsVal.str "Nature".toList)]

/-- A trivial external formatter (all formats produce `""`), used to
evaluate the dispatch logic at concrete inputs. -/
def trivialCiteJS : CiteJS :=
  ⟨fun _ => [], fun _ => [], fun _ => []⟩

/-- A sources folder holding one markdown source note. -/
def demoForest : VaultForest :=
  VaultForest.cons
    (VaultItem.file ⟨"a".toList, "md".toList, some fmJournalExample⟩)
    VaultForest.nil

/-! # Helper lemmas -/

/-! ## Deduplication -/

theorem dedupByKey_fst_filter {α κ : Type} [DecidableEq κ] (key : α → κ)
    (k : κ) :
    ∀ (l : List α) (seen : List κ),
      (dedupByKey key l seen).1.filter (fun s => key s = k) =
        if k ∈ seen then [] else (l.filter (fun s => key s = k)).take 1 := by
  intro l
  induction l with
  | nil =>
    intro seen
    simp [dedupByKey]
  | cons s rest ih =>
    intro seen
    simp only [dedupByKey]
    by_cases h1 : key s ∈ seen
    · rw [if_pos h1]
      rw [ih seen]
      by_cases h2 : k ∈ seen
      · simp [h2]
      · have hsk : ¬ (key s = k) := fun h => h2 (h ▸ h1)
        simp [h2, List.filter_cons, hsk]
    · rw [if_neg h1]
      by_cases h2 : key s = k
      · have hk : k ∉ seen := h2 ▸ h1
        simp only [List.filter_cons, h2]
        rw [ih (k :: seen)]
        rw [if_pos (List.mem_cons_self _ _)]
        simp [hk]
      · simp only [List.filter_cons, h2]
        rw [ih (key s :: seen)]
        by_cases hk : k ∈ seen
        · simp [hk, List.mem_cons]
        · have : k ∉ key s :: seen := by
            intro hmem
            rcases List.mem_cons.mp hmem with h | h
            · exact h2 h.symm
            · exact hk h
          simp [hk, this]

theorem dedupByKey_fst_sublist {α κ : Type} [DecidableEq κ] (key : α → κ) :
    ∀ (l : List α) (seen : List κ), (dedupByKey key l seen).1.Sublist l := by
  intro l
  induction l with
  | nil => intro seen; simp [dedupByKey]
  | cons s rest ih =>
    intro seen
    simp only [dedupByKey]
    by_cases h1 : key s ∈ seen
    · rw [if_pos h1]
      exact (ih seen).cons s
    · rw [if_neg h1]
      exact (ih (key s :: seen)).cons₂ s

theorem dedupByKey_snd_eq_zero_iff {α κ : Type} [DecidableEq κ] (key : α → κ) :
    ∀ (l : List α) (seen : List κ),
      (dedupByKey key l seen).2 = 0 ↔
        (l.map key).Nodup ∧ ∀ k ∈ l.map key, k ∉ seen := by
  intro l
  induction l with
  | nil => intro seen; simp [dedupByKey]
  | cons s rest ih =>
    intro seen
    simp only [dedupByKey]
    by_cases h1 : key s ∈ seen
    · rw [if_pos h1]
      simp only [List.map_cons, List.nodup_cons]
      constructor
      · intro h
        exact absurd h (Nat.succ_ne_zero _)
      · rintro ⟨-, hall⟩
        exact absurd h1 (hall (key s) (List.mem_cons_self _ _))
    · rw [if_neg h1]
      rw [ih (key s :: seen)]
      simp only [List.map_cons, List.nodup_cons]
      constructor
      · rintro ⟨hnd, hall⟩
        refine ⟨⟨fun hmem => ?_, hnd⟩, ?_⟩
        · exact (hall _ hmem) (List.mem_cons_self _ _)
        · intro k hk
          rcases List.mem_cons.mp hk with rfl | hk2
          · exact h1
          · intro hks
            exact (hall k hk2) (List.mem_cons_of_mem _ hks)
      · rintro ⟨⟨hmem, hnd⟩, hall⟩
        refine ⟨hnd, fun k hk => ?_⟩
        intro hks
        rcases List.mem_cons.mp hks with rfl | hks2
        · exact hmem hk
        · exact (hall k (List.mem_cons_of_mem _ hk)) hks2

theorem not_nodup_iff_exists_get_pair {α : Type} (l : List α) :
    ¬ l.Nodup ↔
      ∃ i j : Fin l.length, i.val < j.val ∧ l.get i = l.get j := by
  rw [List.Nodup, List.pairwise_iff_get]
  push_neg
  constructor
  · rintro ⟨i, j, hij, heq⟩
    exact ⟨i, j, hij, heq⟩
  · rintro ⟨i, j, hij, heq⟩
    exact ⟨i, j, hij, heq⟩

theorem not_nodup_map_iff_exists_get_pair {α β : Type} (f : α → β) (l : List α) :
    ¬ (l.map f).Nodup ↔
      ∃ i j : Fin l.length, i.val < j.val ∧ f (l.get i) = f (l.get j) := by
  rw [List.Nodup, List.pairwise_map, List.pairwise_iff_get]
  push_neg
  constructor
  · rintro ⟨i, j, hij, heq⟩
    exact ⟨i, j, hij, heq⟩
  · rintro ⟨i, j, hij, heq⟩
    exact ⟨i, j, hij, heq⟩

theorem dedupByKey_fst_keys_nodup {α κ : Type} [DecidableEq κ] (key : α → κ) :
    ∀ (l : List α) (seen : List κ),
      ((dedupByKey key l seen).1.map key).Nodup ∧
        ∀ k ∈ (dedupByKey key l seen).1.map key, k ∉ seen := by
  intro l
  induction l with
  | nil => intro seen; simp [dedupByKey]
  | cons s rest ih =>
    intro seen
    simp only [dedupByKey]
    by_cases h1 : key s ∈ seen
    · rw [if_pos h1]
      exact ih seen
    · rw [if_neg h1]
      obtain ⟨hnd, hall⟩ := ih (key s :: seen)
      simp only [List.map_cons, List.nodup_cons]
      refine ⟨⟨fun hmem => ?_, hnd⟩, fun k hk => ?_⟩
      · exact (hall _ hmem) (List.mem_cons_self _ _)
      · rcases List.mem_cons.mp hk with rfl | hk2
        · exact h1
        · intro hks
          exact (hall k hk2) (List.mem_cons_of_mem _ hks)

theorem collectCiteData_snd_eq (m : List ((List Char) × (List Char))) :
    ∀ (files : List TFileModel) (seen : List JsVal),
      (collectCiteData m files seen).2 =
        (dedupByKey (fun k : JsVal => k) (collectedCitekeys files) seen).2 := by
  intro files
  induction files with
  | nil => intro seen; simp [collectCiteData, collectedCitekeys, dedupByKey]
  | cons f rest ih =>
    intro seen
    cases hc : f.cache with
    | none =>
      simp only [collectCiteData, collectedCitekeys, List.filterMap_cons, hc]
      exact ih seen
    | some fm =>
      cases hck : jsGet fm "citekey".toList with
      | none =>
        simp only [collectCiteData, collectedCitekeys, List.filterMap_cons, hc, hck]
        exact ih seen
      | some ck =>
        by_cases ht : truthy ck = true
        · simp only [collectCiteData, collectedCitekeys, List.filterMap_cons, hc, hck, ht,
            if_true, dedupByKey]
          by_cases hs : ck ∈ seen
          · simp [hs, ih seen, collectedCitekeys]
          · simp [hs, ih (ck :: seen), collectedCitekeys]
        · have ht2 : truthy ck = false := by simpa using ht
          simp only [collectCiteData, collectedCitekeys, List.filterMap_cons, hc, hck, ht2]
          simpa [collectedCitekeys] using ih seen

/-! # Claim theorems -/

/-- C1: the export-time deduplication pass by citekey enforces citekey
uniqueness with first-occurrence-wins semantics: in `uniqueSources` each
citekey occurs at most once (and every input citekey exactly once, by the
filter equation), the record kept for a citekey is the first input record
carrying it, and the kept records appear as a sublist of the input, i.e. in
input order. -/
theorem deduplicateSources_firstOccurrenceWins :
    ∀ sources : List SourceData,
      (((deduplicateSources sources).uniqueSources.map
          (fun s => s.citekey)).Nodup) ∧
      ((deduplicateSources sources).uniqueSources.Sublist sources) ∧
      (∀ k : List Char,
        (deduplicateSources sources).uniqueSources.filter
            (fun s => s.citekey = k) =
          (sources.filter (fun s => s.citekey = k)).take 1) := by
  intro sources
  refine ⟨(dedupByKey_fst_keys_nodup _ sources []).1,
    dedupByKey_fst_sublist _ sources [],
    fun k => ?_⟩
  have h := dedupByKey_fst_filter (fun s : SourceData => s.citekey) k sources []
  simpa [deduplicateSources] using h

/-- C7: the duplicate-citekey warning (console warning plus `Notice`) is
emitted by `generateBibtex` iff two collected records share a citekey, and
by `SourceService.generateBibliography` iff two of the collected truthy
citekey values coincide; with all citekeys distinct no warning fires. -/
theorem duplicateWarning_iff :
    (∀ sources : List SourceData,
      generateBibtexWarns sources = true ↔
        ∃ i j : Fin sources.length, i.val < j.val ∧
          (sources.get i).citekey = (sources.get j).citekey) ∧
    (∀ (mappings : List ((List Char) × (List Char)))
        (files : List TFileModel),
      generateBibliographyWarns mappings files = true ↔
        ∃ i j : Fin (collectedCitekeys files).length, i.val < j.val ∧
          (collectedCitekeys files).get i = (collectedCitekeys files).get j) := by
  constructor
  · intro sources
    have h0 : generateBibtexWarns sources = true ↔
        ¬ (deduplicateSources sources).duplicatesFound = 0 := by
      simp [generateBibtexWarns, Nat.pos_iff_ne_zero]
    rw [h0]
    have h1 := dedupByKey_snd_eq_zero_iff (fun s : SourceData => s.citekey) sources []
    have h2 : (deduplicateSources sources).duplicatesFound =
        (dedupByKey (fun s : SourceData => s.citekey) sources []).2 := rfl
    rw [h2, h1]
    simp only [List.not_mem_nil, not_false_iff, implies_true, and_true]
    exact not_nodup_map_iff_exists_get_pair _ sources
  · intro mappings files
    have h0 : generateBibliographyWarns mappings files = true ↔
        ¬ (collectCiteData mappings files []).2 = 0 := by
      simp [generateBibliographyWarns, Nat.pos_iff_ne_zero]
    rw [h0, collectCiteData_snd_eq]
    rw [dedupByKey_snd_eq_zero_iff]
    simp only [List.not_mem_nil, not_false_iff, implies_true, and_true]
    have := not_nodup_iff_exists_get_pair (collectedCitekeys files)
    simpa using this

/-- C10: with an empty collected source list, `generateBibtex` returns
exactly the literal `"% No sources found"` (for every external formatter,
so no citation-js call and no exception is involved), which is not the
empty string. -/
theorem generateBibtex_emptySources :
    ∀ citeFormat, generateBibtex citeFormat [] = "% No sources found".toList ∧
      generateBibtex citeFormat [] ≠ [] := by
  intro citeFormat
  constructor
  · rfl
  · simp [generateBibtex]

/-! ## Template substitution -/

theorem jsReplaceAll_eq_self (tryMatch : List Char → Option (List Char × List Char))
    (H : ∀ l rep r, tryMatch l = some (rep, r) → r.length < l.length) :
    ∀ l : List Char, (∀ s, s <:+ l → tryMatch s = none) →
      jsReplaceAll tryMatch H l = l := by
  intro l
  induction l with
  | nil => intro _; simp [jsReplaceAll]
  | cons c rest ih =>
    intro hnone
    simp only [jsReplaceAll]
    split
    · next rep remaining heq =>
      rw [hnone _ (List.suffix_refl _)] at heq
      exact absurd heq (by simp)
    · next heq =>
      congr 1
      exact ih (fun s hs => hnone s (hs.trans (List.suffix_cons c rest)))

theorem tryTemplateVar_none_head (d : List Char → Option (List Char))
    (c : Char) (x : List Char) (hc : c ≠ '{') :
    tryTemplateVar d (c :: x) = none := by
  cases x with
  | nil => rfl
  | cons c2 x2 => simp [tryTemplateVar, hc]

theorem renderTemplateRegex_append_lit (d : List Char → Option (List Char)) :
    ∀ (a t : List Char), '{' ∉ a →
      renderTemplateRegex d (a ++ t) = a ++ renderTemplateRegex d t := by
  intro a
  induction a with
  | nil => intro t _; rfl
  | cons c a' ih =>
    intro t hmem
    have hc : c ≠ '{' := fun hh => hmem (hh ▸ List.mem_cons_self _ _)
    have h' : '{' ∉ a' := fun hh => hmem (List.mem_cons_of_mem _ hh)
    simp only [List.cons_append, renderTemplateRegex, jsReplaceAll]
    split
    · next rep remaining heq =>
      rw [tryTemplateVar_none_head d c _ hc] at heq
      exact absurd heq (by simp)
    · next heq =>
      have := ih t h'
      simp only [renderTemplateRegex] at this
      rw [this]

theorem takeWhile_dropWhile_append {α : Type} (p : α → Bool) :
    ∀ (n : List α) (b : α) (t : List α),
      (∀ c ∈ n, p c = true) → p b = false →
      ((n ++ b :: t).takeWhile p = n ∧ (n ++ b :: t).dropWhile p = b :: t) := by
  intro n
  induction n with
  | nil =>
    intro b t _ hb
    constructor
    · simp [List.takeWhile_cons, hb]
    · simp [List.dropWhile_cons, hb]
  | cons c n' ih =>
    intro b t h hb
    have hc : p c = true := h c (List.mem_cons_self _ _)
    have h' : ∀ x ∈ n', p x = true := fun x hx => h x (List.mem_cons_of_mem _ hx)
    obtain ⟨ht, hd⟩ := ih b t h' hb
    constructor
    · simp [List.takeWhile_cons, hc, ht]
    · simp [List.dropWhile_cons, hc, hd]

theorem tryTemplateVar_braces (d : List Char → Option (List Char))
    (n t : List Char) (hn : n ≠ []) (hm : '}' ∉ n) :
    tryTemplateVar d ('{' :: '{' :: (n ++ '}' :: '}' :: t)) =
      some ((d (jsTrim n)).getD [], t) := by
  obtain ⟨htake, hdrop⟩ :=
    takeWhile_dropWhile_append (fun x : Char => x ≠ '}') n '}' ('}' :: t)
      (fun c hc => by
        simp only [decide_eq_true_eq]
        exact fun hh => hm (hh ▸ hc))
      (by simp)
  simp only [tryTemplateVar, htake, hdrop]
  simp [hn]

theorem renderTemplateRegex_hole (d : List Char → Option (List Char))
    (n t : List Char) (hn : n ≠ []) (hm : '}' ∉ n) :
    renderTemplateRegex d ('{' :: '{' :: (n ++ '}' :: '}' :: t)) =
      (d (jsTrim n)).getD [] ++ renderTemplateRegex d t := by
  have htv := tryTemplateVar_braces d n t hn hm
  simp only [renderTemplateRegex, jsReplaceAll]
  split
  · next rep remaining heq =>
    rw [htv] at heq
    simp only [Option.some.injEq, Prod.mk.injEq] at heq
    rw [heq.1, heq.2]
  · next heq =>
    rw [htv] at heq
    exact absurd heq (by simp)

/-- C4: the regex-based `{{field}}` substitution engine.  First part: a
template in which `"{{"` never occurs (hence containing no placeholder) is
returned identically.  Second part: for every decomposition of the template
into literal runs (free of `'{'`) and `{{name}}` placeholders (non-empty
names free of `'}'`), every placeholder is replaced by the stringified data
value of its trimmed name — or by the empty string when that value is
undefined or null — and all literal text is left unchanged. -/
theorem renderTemplate_substitution_spec :
    (∀ (d : List Char → Option (List Char)) (t : List Char),
        ¬ (['{', '{'] <:+: t) → renderTemplateRegex d t = t) ∧
    (∀ (d : List Char → Option (List Char)) (segs : List TemplateSeg),
        (∀ s ∈ segs, segWF s) →
        renderTemplateRegex d (segs.map segText).flatten =
          (segs.map (segRendered d)).flatten) := by
  constructor
  · intro d t hinf
    apply jsReplaceAll_eq_self
    intro s hs
    match s with
    | [] => rfl
    | [c] => rfl
    | c1 :: c2 :: rest =>
      by_cases hb : c1 = '{' ∧ c2 = '{'
      · exfalso
        apply hinf
        have hpre : ['{', '{'] <+: (c1 :: c2 :: rest) := by
          rw [hb.1, hb.2]
          exact ⟨rest, rfl⟩
        exact hpre.isInfix.trans hs.isInfix
      · simp [tryTemplateVar, hb]
  · intro d segs
    induction segs with
    | nil =>
      intro _
      simp [renderTemplateRegex, jsReplaceAll]
    | cons seg segs ih =>
      intro hwf
      have hwfh := hwf seg (List.mem_cons_self _ _)
      have hwft : ∀ s ∈ segs, segWF s :=
        fun s hs => hwf s (List.mem_cons_of_mem _ hs)
      cases seg with
      | lit s =>
        simp only [List.map_cons, List.flatten_cons, segText, segRendered]
        rw [renderTemplateRegex_append_lit d s _ hwfh, ih hwft]
      | hole n =>
        obtain ⟨hn, hm⟩ := hwfh
        simp only [List.map_cons, List.flatten_cons, segText, segRendered]
        have hshape :
            ('{' :: '{' :: (n ++ ['}', '}'])) ++ (segs.map segText).flatten =
              '{' :: '{' :: (n ++ '}' :: '}' :: (segs.map segText).flatten) := by
          simp
        rw [hshape, renderTemplateRegex_hole d n _ hn hm, ih hwft]

/-- Witness for C4 at a concrete template and record: `{{ title }}` is
substituted (with the name trimmed) and the surrounding literal text is
untouched. -/
theorem renderTemplate_substitution_witness :
    renderTemplateRegex templateDataExample "Title: {{ title }}!".toList =
      "Title: Dune!".toList := by
  have h := renderTemplate_substitution_spec.2 templateDataExample
    [TemplateSeg.lit "Title: ".toList, TemplateSeg.hole " title ".toList,
     TemplateSeg.lit "!".toList]
    (by
      intro s hs
      simp only [List.mem_cons, List.not_mem_nil, or_false] at hs
      rcases hs with rfl | rfl | rfl
      · exact (by decide : ('{' : Char) ∉ "Title: ".toList)
      · exact ⟨by decide, by decide⟩
      · exact (by decide : ('{' : Char) ∉ "!".toList))
  have e1 : (([TemplateSeg.lit "Title: ".toList,
      TemplateSeg.hole " title ".toList,
      TemplateSeg.lit "!".toList].map segText).flatten) =
      "Title: {{ title }}!".toList := by decide
  have e2 : (([TemplateSeg.lit "Title: ".toList,
      TemplateSeg.hole " title ".toList,
      TemplateSeg.lit "!".toList].map (segRendered templateDataExample)).flatten) =
      "Title: Dune!".toList := by decide
  rw [e1, e2] at h
  exact h

/-! ## Decimal rendering lemmas -/

theorem natDigitsAux_congr :
    ∀ (n f g : Nat), n < f → n < g → natDigitsAux f n = natDigitsAux g n := by
  intro n
  induction n using Nat.strong_induction_on with
  | _ n ih =>
    intro f g hf hg
    match f, g, hf, hg with
    | f' + 1, g' + 1, hf, hg =>
      simp only [natDigitsAux]
      by_cases h10 : n < 10
      · simp [h10]
      · simp only [h10, if_false]
        congr 1
        have hdiv : n / 10 < n := Nat.div_lt_self (by omega) (by omega)
        exact ih (n / 10) hdiv f' g' (by omega) (by omega)

theorem natToString_step (n : Nat) (h : 10 ≤ n) :
    natToString n = natToString (n / 10) ++ [Nat.digitChar (n % 10)] := by
  have h10 : ¬ n < 10 := by omega
  have hdiv : n / 10 < n := Nat.div_lt_self (by omega) (by omega)
  show natDigitsAux (n + 1) n = _
  rw [natDigitsAux]
  rw [if_neg h10]
  congr 1
  exact natDigitsAux_congr (n / 10) n (n / 10 + 1) (by omega) (by omega)

theorem yearSuffix_eq_specLastTwoDigits (y : Nat) (h : 100 ≤ y) :
    CitekeyGenerator.yearSuffix y = specLastTwoDigits y := by
  have h1 : natToString y = natToString (y / 10) ++ [Nat.digitChar (y % 10)] :=
    natToString_step y (by omega)
  have hd10 : 10 ≤ y / 10 := by
    rw [Nat.le_div_iff_mul_le (by norm_num)]
    omega
  have h2 : natToString (y / 10) =
      natToString (y / 10 / 10) ++ [Nat.digitChar (y / 10 % 10)] :=
    natToString_step (y / 10) hd10
  rw [CitekeyGenerator.yearSuffix, jsSliceLast2, h1, h2]
  have harr :
      (natToString (y / 10 / 10) ++ [Nat.digitChar (y / 10 % 10)]) ++
          [Nat.digitChar (y % 10)] =
        natToString (y / 10 / 10) ++
          [Nat.digitChar (y / 10 % 10), Nat.digitChar (y % 10)] := by
    simp
  rw [harr, List.length_append]
  have hlen : (natToString (y / 10 / 10)).length + 2 - 2 =
      (natToString (y / 10 / 10)).length := by
    simp
  simp only [List.length_cons, List.length_nil] at *
  rw [show (natToString (y / 10 / 10)).length + (0 + 1 + 1) - 2 =
      (natToString (y / 10 / 10)).length by omega]
  rw [List.drop_left]
  rfl

/-! ## Citekey claim theorems -/

/-- C3 counterexample: the part_005 `CitekeyGenerator` accepts the title in
`generateFromTitleAndAuthors` but ignores it — two different titles with an
empty author list give the same constant citekey `"Unknown20"`, while the
part_010/api.ts variant derives `"Quant20"` from the first title on the
same input.  So the generated citekey is not, as the claim states, derived
from the title whenever the author list is empty. -/
theorem generateCitekey_title_counterexample :
    CitekeyGeneratorOld.generateFromTitleAndAuthors
        "Quantum Mechanics".toList [] 2020 = "Unknown20".toList ∧
    CitekeyGeneratorOld.generateFromTitleAndAuthors
        "Biology".toList [] 2020 = "Unknown20".toList ∧
    CitekeyGenerator.generateCitekey [] 2020
        (some "Quantum Mechanics".toList) = "Quant20".toList := by
  refine ⟨by decide, by decide, ?_⟩
  simp [CitekeyGenerator.generateCitekey, CitekeyGenerator.cleanTitle,
    replaceTags, replaceEntities, replaceLatex, jsReplaceAll, tryTag,
    tryEntity, tryLatex, scanTo, removeBraces, punctToSpace, dashesToHyphen,
    removeInvalid, invalidFileChar, jsTrim, jsSpace, isAsciiLetter,
    List.rdropWhile, upperFirst, CitekeyGenerator.yearSuffix, natToString,
    natDigitsAux, jsSliceLast2]
  decide

/-- C3 (amended): the citekey formulas of the api.ts/part_010
`CitekeyGenerator`.  One author: capitalized first three letters of the
surname plus the last two digits of the year; two or more authors: the
first two letters of the first two surnames, each pair capitalized, plus
the year digits; empty author list with a non-blank title: the first five
characters of the cleaned title, lowercased with the first character then
uppercased, plus the year digits; empty author list without a usable
title: the constant `"Unknown"` plus the year digits.  The part_005
variant coincides with the no-title behaviour for every author list, i.e.
it never consults the title. -/
theorem generateCitekey_spec :
    (∀ (title : Option (List Char)) (a : List Char) (year : Nat),
      100 ≤ year →
      CitekeyGenerator.generateCitekey [a] year title =
        capitalizeWord ((CitekeyGenerator.extractLastName a).take 3) ++
          specLastTwoDigits year) ∧
    (∀ (title : Option (List Char)) (a b : List Char)
        (rest : List (List Char)) (year : Nat), 100 ≤ year →
      CitekeyGenerator.generateCitekey (a :: b :: rest) year title =
        capitalizeWord ((CitekeyGenerator.extractLastName a).take 2) ++
          capitalizeWord ((CitekeyGenerator.extractLastName b).take 2) ++
          specLastTwoDigits year) ∧
    (∀ (t : List Char) (year : Nat), 100 ≤ year → jsTrim t ≠ [] →
      CitekeyGenerator.generateCitekey [] year (some t) =
        upperFirst (((CitekeyGenerator.cleanTitle t).take 5).map Char.toLower) ++
          specLastTwoDigits year) ∧
    (∀ year : Nat, 100 ≤ year →
      CitekeyGenerator.generateCitekey [] year none =
        "Unknown".toList ++ specLastTwoDigits year) ∧
    (∀ (t : List Char) (authors : List (List Char)) (year : Nat),
      CitekeyGeneratorOld.generateFromTitleAndAuthors t authors year =
        CitekeyGenerator.generateCitekey authors year none) := by
  refine ⟨?_, ?_, ?_, ?_, ?_⟩
  · intro title a year hy
    simp [CitekeyGenerator.generateCitekey, yearSuffix_eq_specLastTwoDigits year hy]
  · intro title a b rest year hy
    simp [CitekeyGenerator.generateCitekey, yearSuffix_eq_specLastTwoDigits year hy]
  · intro t year hy ht
    have hlen : 0 < (jsTrim t).length := List.length_pos.mpr ht
    simp [CitekeyGenerator.generateCitekey, hlen,
      yearSuffix_eq_specLastTwoDigits year hy]
  · intro year hy
    simp [CitekeyGenerator.generateCitekey, yearSuffix_eq_specLastTwoDigits year hy]
  · intro t authors year
    cases authors with
    | nil => rfl
    | cons a rest =>
      cases rest with
      | nil => rfl
      | cons b rest2 => rfl

/-- Witness for C3 at a concrete input: one author `"Smith, John"`, year
2020, no title gives `"Smi20"`. -/
theorem generateCitekey_spec_witness :
    CitekeyGenerator.generateCitekey ["Smith, John".toList] 2020 none =
      "Smi20".toList := by
  have h := generateCitekey_spec.1 none "Smith, John".toList 2020 (by decide)
  rw [h]
  decide

/-! ## Sanitizer lemmas -/

theorem mem_trimHyphens {c : Char} {l : List Char} (h : c ∈ trimHyphens l) :
    c ∈ l := by
  have h1 : c ∈ l.dropWhile (· = '-') :=
    (List.rdropWhile_prefix _ _).subset h
  exact (List.dropWhile_suffix _).subset h1

theorem mem_jsTrim {c : Char} {l : List Char} (h : c ∈ jsTrim l) : c ∈ l := by
  have h1 : c ∈ l.dropWhile jsSpace :=
    (List.rdropWhile_prefix _ _).subset h
  exact (List.dropWhile_suffix _).subset h1

theorem mem_collapseSpaceHyphen {c : Char} :
    ∀ l : List Char, c ∈ collapseSpaceHyphen l →
      jsSpace c = false ∧ (c = '-' ∨ c ∈ l) := by
  intro l
  induction l using collapseSpaceHyphen.induct with
  | case1 =>
    intro h
    simp [collapseSpaceHyphen] at h
  | case2 a rest ha ih =>
    intro h
    simp only [collapseSpaceHyphen, ha, if_true] at h
    rcases List.mem_cons.mp h with rfl | h2
    · exact ⟨by decide, Or.inl rfl⟩
    · obtain ⟨hs, hor⟩ := ih h2
      refine ⟨hs, ?_⟩
      rcases hor with rfl | hmem
      · exact Or.inl rfl
      · exact Or.inr (List.mem_cons_of_mem _
          ((List.dropWhile_suffix _).subset hmem))
  | case3 a rest ha ih =>
    intro h
    simp only [collapseSpaceHyphen, ha, if_false] at h
    rcases List.mem_cons.mp h with rfl | h2
    · refine ⟨?_, Or.inr (List.mem_cons_self _ _)⟩
      have ha2 := ha
      simp only [Bool.or_eq_true, decide_eq_true_eq, not_or] at ha2
      simpa using ha2.1
    · obtain ⟨hs, hor⟩ := ih h2
      refine ⟨hs, ?_⟩
      rcases hor with rfl | hmem
      · exact Or.inl rfl
      · exact Or.inr (List.mem_cons_of_mem _ hmem)

theorem mem_removeInvalid {c : Char} {l : List Char}
    (h : c ∈ removeInvalid l) : invalidFileChar c = false := by
  have := List.mem_filter.mp h
  simpa using this.2

theorem head?_dropWhile_false {p : Char → Bool} {c : Char} :
    ∀ l : List Char, (l.dropWhile p).head? = some c → p c = false := by
  intro l
  induction l with
  | nil => intro h; simp [List.dropWhile] at h
  | cons a rest ih =>
    intro h
    rw [List.dropWhile_cons] at h
    by_cases ha : p a
    · rw [if_pos ha] at h
      exact ih h
    · rw [if_neg ha] at h
      simp only [List.head?_cons, Option.some.injEq] at h
      rw [← h]
      simpa using ha

theorem trimHyphens_head?_ne {l : List Char} {c : Char}
    (h : (trimHyphens l).head? = some c) : c ≠ '-' := by
  obtain ⟨t, ht⟩ := List.rdropWhile_prefix (· = '-') (l.dropWhile (· = '-'))
  intro hc
  subst hc
  have hne : trimHyphens l ≠ [] := by
    intro hnil
    rw [hnil] at h
    exact absurd h (by simp)
  have hh : (l.dropWhile (· = '-')).head? = some '-' := by
    rw [← ht, List.head?_append]
    rw [trimHyphens] at h
    rw [h]
    rfl
  have := head?_dropWhile_false _ hh
  simp at this

theorem trimHyphens_getLast?_ne {l : List Char} {c : Char}
    (h : (trimHyphens l).getLast? = some c) : c ≠ '-' := by
  intro hc
  subst hc
  have h2 : ((l.dropWhile (· = '-')).reverse.dropWhile (· = '-')).head? =
      some '-' := by
    rw [trimHyphens, List.rdropWhile] at h
    rwa [List.getLast?_reverse] at h
  have := head?_dropWhile_false _ h2
  simp at this

theorem jsTrim_eq_self {l : List Char} (h : ∀ c ∈ l, jsSpace c = false) :
    jsTrim l = l := by
  have h1 : l.dropWhile jsSpace = l := by
    cases l with
    | nil => rfl
    | cons a rest =>
      rw [List.dropWhile_cons, if_neg]
      simp [h a (List.mem_cons_self _ _)]
  rw [jsTrim, h1, List.rdropWhile]
  have h2 : l.reverse.dropWhile jsSpace = l.reverse := by
    cases hr : l.reverse with
    | nil => rfl
    | cons a rest =>
      rw [List.dropWhile_cons, if_neg]
      have ha : a ∈ l := by
        rw [← List.mem_reverse, hr]
        exact List.mem_cons_self _ _
      simp [h a ha]
  rw [h2, List.reverse_reverse]

/-! ## Sanitizer claim theorems -/

/-- C8 counterexample: on `" -abc"` the api.ts/part_010
`sanitizeFilename` returns `"-abc"`, whose first character is a hyphen —
the final `.trim()` exposes a hyphen that the earlier
`.replace(/^-+|-+$/g, "")` could not see behind the leading space. -/
theorem sanitizeFilename_leading_hyphen_counterexample :
    CitekeyGenerator.sanitizeFilename " -abc".toList = "-abc".toList ∧
    ("-abc".toList).head? = some '-' := by
  constructor
  · simp [CitekeyGenerator.sanitizeFilename, replaceTags, replaceEntities,
      replaceLatex, jsReplaceAll, tryTag, tryEntity, tryLatex, scanTo,
      removeBraces, punctToSpace, dashesToHyphen, removeInvalid,
      invalidFileChar, trimHyphens, jsTrim, jsSpace, List.rdropWhile,
      isAsciiLetter]
  · rfl

/-- C8 (amended): both `sanitizeFilename` variants return strings free of
the invalid filename characters; the part_005 variant (which first
collapses whitespace/hyphen runs into a single hyphen) additionally never
returns a leading or trailing hyphen, while the api.ts/part_010 variant
can (see the counterexample). -/
theorem sanitizeFilename_spec :
    (∀ (t : List Char) (c : Char),
        c ∈ CitekeyGenerator.sanitizeFilename t → invalidFileChar c = false) ∧
    (∀ (t : List Char) (c : Char),
        c ∈ CitekeyGeneratorOld.sanitizeFilename t → invalidFileChar c = false) ∧
    (∀ t : List Char,
        (CitekeyGeneratorOld.sanitizeFilename t).head? ≠ some '-' ∧
        (CitekeyGeneratorOld.sanitizeFilename t).getLast? ≠ some '-') := by
  refine ⟨?_, ?_, ?_⟩
  · intro t c h
    exact mem_removeInvalid (mem_trimHyphens (mem_jsTrim h))
  · intro t c h
    have h2 := mem_trimHyphens (mem_jsTrim h)
    rcases (mem_collapseSpaceHyphen _ h2).2 with rfl | h3
    · decide
    · exact mem_removeInvalid h3
  · intro t
    have hid : jsTrim (trimHyphens (collapseSpaceHyphen (removeInvalid
        (dashesToHyphen (punctToSpace (removeBraces (replaceLatex
          (replaceEntities (replaceTags t))))))))) =
        trimHyphens (collapseSpaceHyphen (removeInvalid (dashesToHyphen
          (punctToSpace (removeBraces (replaceLatex (replaceEntities
            (replaceTags t)))))))) := by
      apply jsTrim_eq_self
      intro c hc
      exact (mem_collapseSpaceHyphen _ (mem_trimHyphens hc)).1
    constructor
    · intro h
      rw [CitekeyGeneratorOld.sanitizeFilename] at h
      rw [hid] at h
      exact trimHyphens_head?_ne h rfl
    · intro h
      rw [CitekeyGeneratorOld.sanitizeFilename] at h
      rw [hid] at h
      exact trimHyphens_getLast?_ne h rfl

/-- Witness for C8 at a concrete input: `"ab"` sanitizes to itself in both
variants, and its characters are not invalid filename characters. -/
theorem sanitizeFilename_spec_witness :
    invalidFileChar 'a' = false ∧ invalidFileChar 'b' = false := by
  have e10 : CitekeyGenerator.sanitizeFilename "ab".toList = "ab".toList := by
    simp [CitekeyGenerator.sanitizeFilename, replaceTags, replaceEntities,
      replaceLatex, jsReplaceAll, tryTag, tryEntity, tryLatex, scanTo,
      removeBraces, punctToSpace, dashesToHyphen, removeInvalid,
      invalidFileChar, trimHyphens, jsTrim, jsSpace, List.rdropWhile,
      isAsciiLetter]
  have e05 : CitekeyGeneratorOld.sanitizeFilename "ab".toList = "ab".toList := by
    simp [CitekeyGeneratorOld.sanitizeFilename, replaceTags, replaceEntities,
      replaceLatex, jsReplaceAll, tryTag, tryEntity, tryLatex, scanTo,
      removeBraces, punctToSpace, dashesToHyphen, removeInvalid,
      invalidFileChar, trimHyphens, jsTrim, jsSpace, List.rdropWhile,
      isAsciiLetter, collapseSpaceHyphen]
  constructor
  · exact sanitizeFilename_spec.1 "ab".toList 'a' (by rw [e10]; decide)
  · exact sanitizeFilename_spec.2.1 "ab".toList 'b' (by rw [e05]; decide)

/-! ## Vault scan lemmas and claim theorems -/

mutual

theorem searchItem_eq_filter :
    ∀ i : VaultItem,
      searchSourceFilesItem i =
        (allFilesItem i).filter
          (fun m => m.extension = "md".toList ∧ cacheCitekeyTruthy m = true)
  | .file m => by
    simp only [searchSourceFilesItem, allFilesItem]
    by_cases hp : m.extension = "md".toList ∧ cacheCitekeyTruthy m = true
    · rw [if_pos ⟨hp.1, hp.2⟩]
      simp [List.filter, hp.1, hp.2]
    · rw [if_neg (fun hc => hp ⟨hc.1, hc.2⟩)]
      simp only [List.filter]
      rw [decide_eq_false hp]
  | .folder n cs => by
    simp only [searchSourceFilesItem, allFilesItem]
    exact searchForest_eq_filter cs

theorem searchForest_eq_filter :
    ∀ f : VaultForest,
      searchSourceFilesForest f =
        (allFilesForest f).filter
          (fun m => m.extension = "md".toList ∧ cacheCitekeyTruthy m = true)
  | .nil => rfl
  | .cons i rest => by
    simp only [searchSourceFilesForest, allFilesForest, List.filter_append]
    rw [searchItem_eq_filter i, searchForest_eq_filter rest]

end

/-- C6 (amended): the recursive scan collects exactly the markdown files of
the folder tree whose cached frontmatter holds a truthy (non-empty)
`citekey` value; every collected file is markdown with a truthy citekey, so
files lacking a citekey (or all frontmatter) contribute nothing — but a
file merely carrying the field with an empty value is excluded too (see the
counterexample). -/
theorem searchSourceFiles_exactly_truthy_citekey :
    (∀ f : VaultForest,
      searchSourceFilesForest f =
        (allFilesForest f).filter
          (fun m => m.extension = "md".toList ∧ cacheCitekeyTruthy m = true)) ∧
    (∀ (f : VaultForest) (m : TFileModel),
      m ∈ searchSourceFilesForest f →
        m.extension = "md".toList ∧ cacheCitekeyTruthy m = true) := by
  refine ⟨searchForest_eq_filter, fun f m hm => ?_⟩
  rw [searchForest_eq_filter f] at hm
  have := List.mem_filter.mp hm
  exact of_decide_eq_true this.2

/-- C6 counterexample: a markdown file whose frontmatter carries the
`citekey` field with value `""` is not collected — the truthiness check
excludes it even though it carries the field. -/
theorem searchSourceFiles_emptyCitekey_counterexample :
    searchSourceFilesForest
        (VaultForest.cons (VaultItem.file fileWithEmptyCitekey)
          VaultForest.nil) = [] ∧
    jsGet ((fileWithEmptyCitekey.cache).getD []) "citekey".toList =
      some (JsVal.str []) := by
  constructor
  · rfl
  · rfl

/-- Witness for C6 at a concrete tree: a nested folder holding one markdown
file with citekey `"Doe21"` and one markdown file without frontmatter
collects exactly the first file. -/
theorem searchSourceFiles_witness :
    searchSourceFilesForest
        (VaultForest.cons
          (VaultItem.folder "sub".toList
            (VaultForest.cons
              (VaultItem.file ⟨"a".toList, "md".toList,
                some [("citekey".toList, JsVal.str "Doe21".toList)]⟩)
              (VaultForest.cons
                (VaultItem.file ⟨"b".toList, "md".toList, none⟩)
                VaultForest.nil)))
          VaultForest.nil) =
      [⟨"a".toList, "md".toList,
        some [("citekey".toList, JsVal.str "Doe21".toList)]⟩] := by
  have h := searchSourceFiles_exactly_truthy_citekey.1
    (VaultForest.cons
      (VaultItem.folder "sub".toList
        (VaultForest.cons
          (VaultItem.file ⟨"a".toList, "md".toList,
            some [("citekey".toList, JsVal.str "Doe21".toList)]⟩)
          (VaultForest.cons
            (VaultItem.file ⟨"b".toList, "md".toList, none⟩)
            VaultForest.nil)))
      VaultForest.nil)
  rw [h]
  rfl

/-! ## Decimal injectivity and unique-filename lemmas -/

theorem digitChar_toNat (n : Nat) (h : n < 10) :
    (Nat.digitChar n).toNat = 48 + n := by
  interval_cases n <;> rfl

theorem natToString_lt_ten (n : Nat) (h : n < 10) :
    natToString n = [Nat.digitChar n] := by
  show natDigitsAux (n + 1) n = _
  rw [natDigitsAux, if_pos h]

theorem parseDec_append_last (xs : List Char) (c : Char) :
    parseDec (xs ++ [c]) = 10 * parseDec xs + (c.toNat - 48) := by
  rw [parseDec, List.foldl_append]
  rfl

theorem parseDec_natToString : ∀ n : Nat, parseDec (natToString n) = n := by
  intro n
  induction n using Nat.strong_induction_on with
  | _ n ih =>
    by_cases h10 : n < 10
    · rw [natToString_lt_ten n h10]
      show 10 * 0 + ((Nat.digitChar n).toNat - 48) = n
      rw [digitChar_toNat n h10]
      omega
    · rw [natToString_step n (by omega), parseDec_append_last]
      have hdiv : n / 10 < n := Nat.div_lt_self (by omega) (by omega)
      rw [ih (n / 10) hdiv, digitChar_toNat (n % 10) (Nat.mod_lt _ (by omega))]
      omega

theorem natToString_inj {m n : Nat} (h : natToString m = natToString n) :
    m = n := by
  have := congrArg parseDec h
  rwa [parseDec_natToString, parseDec_natToString] at this

theorem natToString_ne_nil (n : Nat) : natToString n ≠ [] := by
  by_cases h10 : n < 10
  · rw [natToString_lt_ten n h10]
    simp
  · rw [natToString_step n (by omega)]
    simp

theorem candidateName_inj (base : List Char) :
    ∀ i j : Nat, candidateName base i = candidateName base j → i = j := by
  have hlen : ∀ k : Nat, 1 ≤ (natToString k).length := by
    intro k
    have := natToString_ne_nil k
    cases h : natToString k with
    | nil => exact absurd h this
    | cons a l => simp
  intro i j h
  match i, j with
  | 0, 0 => rfl
  | 1, 1 => rfl
  | 0, 1 =>
    exfalso
    have := congrArg List.length h
    simp [candidateName] at this
  | 1, 0 =>
    exfalso
    have := congrArg List.length h
    simp [candidateName] at this
  | 0, n + 2 =>
    exfalso
    have := congrArg List.length h
    have hl := hlen (n + 2)
    simp [candidateName] at this
    try omega
  | n + 2, 0 =>
    exfalso
    have := congrArg List.length h
    have hl := hlen (n + 2)
    simp [candidateName] at this
    try omega
  | 1, n + 2 =>
    exfalso
    have := congrArg List.length h
    have hl := hlen (n + 2)
    simp [candidateName] at this
    try omega
  | n + 2, 1 =>
    exfalso
    have := congrArg List.length h
    have hl := hlen (n + 2)
    simp [candidateName] at this
    try omega
  | m + 2, n + 2 =>
    simp only [candidateName, List.append_assoc] at h
    have h1 := List.append_cancel_left h
    have h2 := List.append_cancel_left h1
    have h3 : natToString (m + 2) = natToString (n + 2) :=
      List.append_cancel_right h2
    have := natToString_inj h3
    omega

theorem notePath_inj_name {folderPath a b : List Char}
    (h : notePath folderPath a = notePath folderPath b) : a = b := by
  simp only [notePath, List.append_assoc] at h
  have h1 := List.append_cancel_left h
  have h2 := List.append_cancel_left h1
  exact List.append_cancel_right h2

theorem findFree_spec (isTaken : Nat → Bool) :
    ∀ (fuel i : Nat), (∃ j, j < fuel ∧ isTaken (i + j) = false) →
      isTaken (findFree isTaken fuel i) = false := by
  intro fuel
  induction fuel with
  | zero =>
    intro i h
    obtain ⟨j, hj, -⟩ := h
    omega
  | succ fuel ih =>
    intro i h
    rw [findFree]
    by_cases ht : isTaken i = true
    · rw [if_pos ht]
      apply ih
      obtain ⟨j, hj, hf⟩ := h
      match j with
      | 0 => rw [Nat.add_zero] at hf; rw [ht] at hf; exact absurd hf (by simp)
      | j + 1 =>
        refine ⟨j, by omega, ?_⟩
        rw [show i + 1 + j = i + (j + 1) by omega]
        exact hf
    · rw [if_neg ht]
      simpa using ht

theorem exists_free_candidate (existing : List (List Char))
    (folderPath base : List Char) :
    ∃ j, j < existing.length + 1 ∧
      decide (notePath folderPath (candidateName base j) ∈ existing) = false := by
  by_contra hcon
  push_neg at hcon
  have hall : ∀ j, j < existing.length + 1 →
      notePath folderPath (candidateName base j) ∈ existing := by
    intro j hj
    have := hcon j hj
    simpa using this
  have hinj : Function.Injective
      (fun j => notePath folderPath (candidateName base j)) := by
    intro a b hab
    exact candidateName_inj base a b (notePath_inj_name hab)
  have hnd : ((List.range (existing.length + 1)).map
      (fun j => notePath folderPath (candidateName base j))).Nodup :=
    (List.nodup_range _).map hinj
  have hsub : ((List.range (existing.length + 1)).map
      (fun j => notePath folderPath (candidateName base j))) ⊆ existing := by
    intro x hx
    obtain ⟨j, hj, rfl⟩ := List.mem_map.mp hx
    exact hall j (List.mem_range.mp hj)
  have hle := (List.subperm_of_subset hnd hsub).length_le
  simp at hle

/-- C9: the filename chosen by `getUniqueFilename` never collides with an
existing vault file (`existing` is the set of occupied paths; when the
sources folder does not resolve to a folder the vault holds no note under
it, which is the hypothesis).  The chosen name is the base name or the base
name with a `" (copy)"` / `" (copy N)"` suffix, as the probing loop
produces them. -/
theorem getUniqueFilename_no_overwrite :
    ∀ (existing : List (List Char)) (folderIsFolder : Bool)
      (folderPath base : List Char),
      (folderIsFolder = false →
        ∀ name, notePath folderPath name ∉ existing) →
      (notePath folderPath
          (getUniqueFilename existing folderIsFolder folderPath base) ∉
        existing) ∧
      (getUniqueFilename existing folderIsFolder folderPath base = base ∨
        getUniqueFilename existing folderIsFolder folderPath base =
          base ++ " (copy)".toList ∨
        ∃ n, 2 ≤ n ∧
          getUniqueFilename existing folderIsFolder folderPath base =
            base ++ " (copy ".toList ++ natToString n ++ [')']) := by
  intro existing folderIsFolder folderPath base hfolder
  cases folderIsFolder with
  | false =>
    rw [getUniqueFilename]
    rw [if_pos (by decide)]
    exact ⟨hfolder rfl base, Or.inl rfl⟩
  | true =>
    rw [getUniqueFilename]
    rw [if_neg (by decide)]
    set isTaken :=
      (fun i => decide
        ((notePath folderPath (candidateName base i)) ∈ existing)) with hik
    have hfree : ∃ j, j < existing.length + 1 ∧ isTaken (0 + j) = false := by
      obtain ⟨j, hj, hf⟩ := exists_free_candidate existing folderPath base
      exact ⟨j, hj, by rw [Nat.zero_add]; exact hf⟩
    have hmain := findFree_spec isTaken (existing.length + 1) 0 hfree
    constructor
    · intro hmem
      rw [hik] at hmain
      simp only [decide_eq_false_iff_not] at hmain
      exact hmain hmem
    · match hk : findFree isTaken (existing.length + 1) 0 with
      | 0 => exact Or.inl rfl
      | 1 => exact Or.inr (Or.inl rfl)
      | n + 2 => exact Or.inr (Or.inr ⟨n + 2, by omega, rfl⟩)

/-- Witness for C9 at a concrete vault: with `sources/Dune.md` occupied,
the chosen filename is `"Dune (copy)"`, whose path is unoccupied. -/
theorem getUniqueFilename_no_overwrite_witness :
    getUniqueFilename [notePath "sources".toList "Dune".toList] true
        "sources".toList "Dune".toList = "Dune (copy)".toList ∧
    notePath "sources".toList "Dune (copy)".toList ∉
      [notePath "sources".toList "Dune".toList] := by
  have heval : getUniqueFilename [notePath "sources".toList "Dune".toList]
      true "sources".toList "Dune".toList = "Dune (copy)".toList := by decide
  constructor
  · exact heval
  · have h := (getUniqueFilename_no_overwrite
      [notePath "sources".toList "Dune".toList] true
      "sources".toList "Dune".toList
      (fun hf => absurd hf (by decide))).1
    rw [heval] at h
    exact h

/-! ## Field-mapping and format-dispatch claim theorems -/

/-- C2: with the default field mappings — whose dictionary does configure
`container-title -> journal` — converting a frontmatter record holding
`journal: "Nature"` produces a citation entry with no `container-title`
key at all (and no `journal` key either): the conversion loop iterates
`BIB_FIELDS`, which contains `journal` but not `container-title`, while
the mapping dictionary is keyed by `container-title`, so the journal value
is dropped. -/
theorem convertFrontmatter_drops_journal :
    jsGet defaultFieldMappings "container-title".toList =
      some "journal".toList ∧
    convertFrontmatterToCitationJS defaultFieldMappings fmJournalExample =
      some [("id".toList, JsVal.str "Smith20".toList),
            ("type".toList, JsVal.str "article".toList)] ∧
    jsGet [(("id".toList : List Char), JsVal.str "Smith20".toList),
           ("type".toList, JsVal.str "article".toList)]
        "container-title".toList = none := by
  refine ⟨by decide, by decide, by decide⟩

/-- C5 counterexample: with no collected source data, an unsupported
format such as `"ris"` does not throw — `generateBibliography` returns the
empty string (`Except.ok ""`) before reaching the format switch. -/
theorem generateBibliography_invalid_format_empty_counterexample :
    generateBibliography trivialCiteJS defaultFieldMappings
        (some VaultForest.nil) "ris".toList = Except.ok [] := by
  rfl

/-- C5 (amended): `generateBibliography` supports exactly the formats
`bibtex`, `csl-json` and `hayagriva` — each returns a string without
throwing; any other format value throws the unsupported-format error
provided at least one citation entry was collected; with no collected
entries it returns the empty string for every format value, including
invalid ones. -/
theorem generateBibliography_formats :
    ∀ (ext : CiteJS) (mappings : List ((List Char) × (List Char)))
      (folder : Option VaultForest) (format : List Char),
      ((format = "bibtex".toList ∨ format = "hayagriva".toList ∨
          format = "csl-json".toList) →
        ∃ s, generateBibliography ext mappings folder format =
          Except.ok s) ∧
      (citeDataOf mappings folder ≠ [] → format ≠ "bibtex".toList →
        format ≠ "hayagriva".toList → format ≠ "csl-json".toList →
        generateBibliography ext mappings folder format =
          Except.error ("Failed to generate ".toList ++ format ++
            ": Unsupported format: ".toList ++ format)) ∧
      (citeDataOf mappings folder = [] →
        generateBibliography ext mappings folder format = Except.ok []) := by
  intro ext mappings folder format
  refine ⟨?_, ?_, ?_⟩
  · intro hf
    rw [generateBibliography]
    by_cases he : (citeDataOf mappings folder).length = 0
    · rw [if_pos he]
      exact ⟨[], rfl⟩
    · rw [if_neg he]
      rcases hf with rfl | rfl | rfl
      · rw [if_pos rfl]
        exact ⟨_, rfl⟩
      · rw [if_neg (by decide), if_pos rfl]
        exact ⟨_, rfl⟩
      · rw [if_neg (by decide), if_neg (by decide), if_pos rfl]
        exact ⟨_, rfl⟩
  · intro hne hb hh hc
    rw [generateBibliography]
    rw [if_neg (fun h => hne (List.length_eq_zero.mp h))]
    rw [if_neg hb, if_neg hh, if_neg hc]
  · intro he
    rw [generateBibliography]
    rw [if_pos (by rw [he]; rfl)]

/-- Witness for C5: with one collected source note and the invalid format
`"ris"`, the thrown error message is
`"Failed to generate ris: Unsupported format: ris"`. -/
theorem generateBibliography_formats_witness :
    generateBibliography trivialCiteJS defaultFieldMappings
        (some demoForest) "ris".toList =
      Except.error
        "Failed to generate ris: Unsupported format: ris".toList := by
  have h := (generateBibliography_formats trivialCiteJS defaultFieldMappings
    (some demoForest) "ris".toList).2.1 (by decide) (by decide) (by decide)
    (by decide)
  rw [h]
  congr 1

end Biblio
